import Mathlib

/-!
Shallow embedding of the `github-create-release` action.

The embedded code is the main module (`run`, `init`, `getRepo`,
`runWithRetry`) together with `isHttpError` from error.mts.  Remote API
responses are supplied by an environment record `Env`; every remote call the
program performs is recorded as an `Effect` in a trace, so that ordering and
"never happens" statements can be made about a run.
-/

namespace GhRelease

/-- The `Strategy` enum from strategy.mts. -/
inductive Strategy where
  | replace
  | failFast
  | useExistingTag
deriving DecidableEq

/-- Model of a JavaScript exception value, carrying exactly the fields that
`isHttpError` (error.mts) inspects: whether the value is an `Error` instance,
its `name`, whether it has an own `status` property, whether that property is
a number, and the numeric value itself. -/
structure JsValue where
  isError : Bool
  name : String
  hasOwnStatus : Bool
  statusIsNumber : Bool
  status : Int
deriving DecidableEq

def httpErrorName : String := "HttpError"

/-- `isHttpError` from error.mts: instance of `Error`, `name === "HttpError"`,
own property `status`, and `typeof status === "number"`. -/
def isHttpError (e : JsValue) : Bool :=
  e.isError && e.name == httpErrorName && e.hasOwnStatus && e.statusIsNumber

/-- Result of `runWithRetry` instrumented with the number of invocations of
the callback and the list of sleep delays performed between attempts. -/
structure RetryResult where
  success : Bool
  err : Option JsValue
  calls : Nat
  sleeps : List ℚ
deriving DecidableEq

/-- The backoff delay computed after a failed attempt `i` in `runWithRetry`:
`Math.min(Math.round((Math.pow(2, i) + Math.random()) * 1000), maxDelay)`.
`rand i` stands for the `Math.random()` draw made after attempt `i`. -/
def backoff (maxDelay : ℚ) (rand : Nat → ℚ) (i : Nat) : ℚ :=
  min (((round ((2 ^ i + rand i) * 1000) : ℤ) : ℚ)) maxDelay

/-- The `for` loop of `runWithRetry` (main module), at loop index `i` with
`n` iterations remaining (`n = attempts - i`).  `f i` is the outcome of the
`i`-th invocation of the fallible callback (`none` means it succeeded,
`some e` means it threw `e`).  A `none` overall result models falling out of
the loop into `throw unreachable()`. -/
def retryGo (maxDelay : ℚ) (f : Nat → Option JsValue) (rand : Nat → ℚ) :
    Nat → Nat → Option RetryResult
  | _, 0 => none
  | i, n + 1 =>
    match f i with
    | none => some ⟨true, none, 1, []⟩
    | some e =>
      if n = 0 then some ⟨false, some e, 1, []⟩
      else
        match retryGo maxDelay f rand (i + 1) n with
        | some r => some ⟨r.success, r.err, r.calls + 1, backoff maxDelay rand i :: r.sleeps⟩
        | none => none

/-- `runWithRetry(attempts, maxDelay, f)` from the main module. -/
def runWithRetry (attempts : Nat) (maxDelay : ℚ) (f : Nat → Option JsValue)
    (rand : Nat → ℚ) : Option RetryResult :=
  retryGo maxDelay f rand 0 attempts

/-- Full characterization of the retry loop, by induction on the remaining
iteration count. -/
theorem retryGo_char (maxDelay : ℚ) (f : Nat → Option JsValue) (rand : Nat → ℚ) :
    ∀ n i, 1 ≤ n →
      ∃ res, retryGo maxDelay f rand i n = some res ∧
        1 ≤ res.calls ∧ res.calls ≤ n ∧
        res.sleeps = (List.range (res.calls - 1)).map (fun k => backoff maxDelay rand (i + k)) ∧
        (∀ k, k + 1 < res.calls → f (i + k) ≠ none) ∧
        (res.success = true → f (i + (res.calls - 1)) = none ∧ res.err = none) ∧
        (res.success = false →
          res.calls = n ∧ res.err = f (i + (n - 1)) ∧ f (i + (n - 1)) ≠ none) := by
  intro n
  induction n with
  | zero => intro i h; omega
  | succ m ih =>
    intro i _
    cases hfi : f i with
    | none =>
      refine ⟨⟨true, none, 1, []⟩, by simp [retryGo, hfi], ?_, ?_, by simp, ?_, ?_, ?_⟩
      · simp
      · simp
      · intro k hk; simp at hk
      · intro _; exact ⟨by simp [hfi], rfl⟩
      · intro h; simp at h
    | some e =>
      by_cases hm : m = 0
      · subst hm
        refine ⟨⟨false, some e, 1, []⟩, by simp [retryGo, hfi], ?_, ?_, by simp, ?_, ?_, ?_⟩
        · simp
        · simp
        · intro k hk; simp at hk
        · intro h; simp at h
        · intro _
          refine ⟨rfl, ?_, ?_⟩
          · show some e = f (i + (0 + 1 - 1))
            simp [hfi]
          · show f (i + (0 + 1 - 1)) ≠ none
            simp [hfi]
      · obtain ⟨r, hr, h1, h2, hsl, hpre, hsucc, hfail⟩ := ih (i + 1) (by omega)
        refine ⟨⟨r.success, r.err, r.calls + 1, backoff maxDelay rand i :: r.sleeps⟩, ?_, ?_, ?_, ?_, ?_, ?_, ?_⟩
        · simp [retryGo, hfi, hm, hr]
        · simp
        · simp; omega
        · -- sleeps
          show backoff maxDelay rand i :: r.sleeps =
            (List.range (r.calls + 1 - 1)).map (fun k => backoff maxDelay rand (i + k))
          have hc : r.calls + 1 - 1 = (r.calls - 1) + 1 := by omega
          rw [hc, List.range_succ_eq_map, List.map_cons, List.map_map, hsl]
          refine congrArg₂ _ (by simp) ?_
          refine List.map_congr_left ?_
          intro k _
          show backoff maxDelay rand (i + 1 + k) = backoff maxDelay rand (i + Nat.succ k)
          congr 1
          omega
        · -- earlier attempts all failed
          intro k hk
          simp at hk
          cases k with
          | zero => simp [hfi]
          | succ k' =>
            have := hpre k' (by omega)
            have harith : i + 1 + k' = i + (k' + 1) := by omega
            rwa [harith] at this
        · -- success case
          intro hs
          simp at hs
          obtain ⟨hnone, herr⟩ := hsucc hs
          refine ⟨?_, herr⟩
          show f (i + (r.calls + 1 - 1)) = none
          have harith : i + 1 + (r.calls - 1) = i + (r.calls + 1 - 1) := by omega
          rwa [harith] at hnone
        · -- failure case
          intro hs
          simp at hs
          obtain ⟨hcalls, herr, hne⟩ := hfail hs
          have harith : i + 1 + (m - 1) = i + (m + 1 - 1) := by omega
          refine ⟨by simp [hcalls], ?_, ?_⟩
          · show r.err = f (i + (m + 1 - 1))
            rwa [harith] at herr
          · rwa [harith] at hne

/-- C10: for every `attempts ≥ 1`, `runWithRetry` returns without reaching the
unreachable throw after its loop; it returns `[true, undefined]` if some
attempt of the operation succeeds, and otherwise `[false, e]` where `e` is the
error raised by the final attempt; the operation is invoked at most `attempts`
times. -/
theorem c10_retry_total (attempts : Nat) (maxDelay : ℚ) (f : Nat → Option JsValue)
    (rand : Nat → ℚ) (h : 1 ≤ attempts) :
    ∃ res, runWithRetry attempts maxDelay f rand = some res ∧
      res.calls ≤ attempts ∧
      ((∃ j, j < attempts ∧ f j = none) → res.success = true ∧ res.err = none) ∧
      ((∀ j, j < attempts → f j ≠ none) → res.success = false ∧ res.err = f (attempts - 1)) := by
  obtain ⟨res, hres, h1, h2, hsl, hpre, hsucc, hfail⟩ := retryGo_char maxDelay f rand attempts 0 h
  refine ⟨res, hres, h2, ?_, ?_⟩
  · rintro ⟨j, hj, hfj⟩
    cases hsb : res.success with
    | true => exact ⟨rfl, (hsucc hsb).2⟩
    | false =>
      obtain ⟨hcalls, herr, hne⟩ := hfail hsb
      rcases Nat.lt_or_ge (j + 1) attempts with hlt | hge
      · have := hpre j (by omega)
        simp at this
        exact absurd hfj this
      · have h0 : (0 : Nat) + (attempts - 1) = j := by omega
        rw [h0] at hne
        exact absurd hfj hne
  · intro hall
    cases hsb : res.success with
    | true =>
      obtain ⟨hnone, _⟩ := hsucc hsb
      have hlt : 0 + (res.calls - 1) < attempts := by omega
      exact absurd hnone (hall (0 + (res.calls - 1)) hlt)
    | false =>
      obtain ⟨hcalls, herr, hne⟩ := hfail hsb
      exact ⟨rfl, by simpa using herr⟩

/-- C6: for every invocation of the retry helper with `attempts = 4` and
`maxDelay = 4000` (the values used by the upload loop), the fallible operation
is run at most 4 times, retrying stops at the first success, after each failed
attempt `i` other than the last the computed sleep delay equals
`min(4000, round((2^i + r) * 1000))` for some `r ∈ [0,1)` (the `Math.random()`
draw), and no sleep occurs after the final attempt (there are exactly
`calls - 1` sleeps). -/
theorem c6_retry_backoff (f : Nat → Option JsValue) (rand : Nat → ℚ)
    (hr : ∀ n, 0 ≤ rand n ∧ rand n < 1) :
    ∃ res, runWithRetry 4 4000 f rand = some res ∧
      res.calls ≤ 4 ∧
      (∀ k, k + 1 < res.calls → f k ≠ none) ∧
      (res.success = true → f (res.calls - 1) = none) ∧
      res.sleeps.length = res.calls - 1 ∧
      (∀ k, ∀ hk : k < res.sleeps.length, ∃ r : ℚ, 0 ≤ r ∧ r < 1 ∧
        res.sleeps.get ⟨k, hk⟩ = min 4000 (((round ((2 ^ k + r) * 1000) : ℤ) : ℚ))) := by
  obtain ⟨res, hres, h1, h2, hsl, hpre, hsucc, hfail⟩ :=
    retryGo_char 4000 f rand 4 0 (by omega)
  refine ⟨res, hres, h2, ?_, ?_, ?_, ?_⟩
  · intro k hk
    simpa using hpre k hk
  · intro hs
    simpa using (hsucc hs).1
  · rw [hsl]; simp
  · intro k hk
    refine ⟨rand k, (hr k).1, (hr k).2, ?_⟩
    rw [List.get_of_eq hsl ⟨k, hk⟩]
    simp [List.get_eq_getElem, backoff]
    rw [min_comm]

/-! ## Data model of the run -/

/-- The common configuration fields (`ConfigBase` in the main module). -/
structure ConfigBase where
  owner : String
  repo : String
  tag : String
  tagMessage : String
  title : String
  body : String
  prerelease : Bool
  draft : Bool
  discussionCategoryName : Option String
  files : List String
deriving DecidableEq

/-- The `Config` union type: either the `UseExistingTag` arm (no `targetSha`)
or the arm carrying a `strategy` together with a `targetSha`. -/
inductive Config where
  | existingTag (base : ConfigBase)
  | withTarget (strategy : Strategy) (targetSha : String) (base : ConfigBase)
deriving DecidableEq

def Config.base : Config → ConfigBase
  | .existingTag b => b
  | .withTarget _ _ b => b

def Config.strategy : Config → Strategy
  | .existingTag _ => .useExistingTag
  | .withTarget s _ _ => s

def Config.targetSha : Config → Option String
  | .existingTag _ => none
  | .withTarget _ sha _ => some sha

def Config.tag (c : Config) : String := c.base.tag

/-- A release as returned by `listReleases`: the two fields the code reads. -/
structure Release where
  id : Nat
  tag_name : String
deriving DecidableEq

/-- One remote API call (or declared output) performed by the program.  Each
constructor records the arguments the code passes to the corresponding
endpoint; `uploadAttempt i k` is the `k`-th invocation of the upload closure
for the `i`-th globbed file. -/
inductive Effect where
  | getRef (ref : String)
  | listReleases
  | deleteRelease (id : Nat)
  | updateRef (ref : String) (sha : String) (force : Bool)
  | createTag (tag : String) (message : String) (object : String)
  | createRef (ref : String) (sha : String)
  | deleteRef (ref : String)
  | createRelease (tagName : String)
  | uploadAttempt (fileIdx : Nat) (attempt : Nat)
  | setOutput (releaseId : Nat)
deriving DecidableEq

/-- Errors that terminate the run: `ActionError(msg, inner)`, the two input
parameter error classes thrown by `init`, and an uncaught non-`ActionError`
exception propagating out of an awaited call. -/
inductive RunError where
  | action (msg : String) (inner : Option JsValue)
  | inputParameterRequired (name : String)
  | inputParameterIncompatibleStrategy (name : String) (strategy : Strategy)
  | unhandled (e : JsValue)
deriving DecidableEq

def msgVerify : String := "failed to verify if tag already exists"
def msgVerifyUnknown : String := "failed to verify if tag already exists (unknown error)"
def msgTagExists : String := "tag already exists"
def msgUpdateTag : String := "failed to update existing tag"
def msgCreateTag : String := "failed to create tag"
def msgCreateRelease : String := "failed to create release"
def msgUpload : String := "failed to upload file: "
def msgResolveTarget : String := "failed to resolve target ref"
def targetParam : String := "target"
def refsSlash : String := "refs/"

/-- The ref string `tags/<tag>` used by the tag lookup and `updateRef`. -/
def tagsRef (tag : String) : String := "tags/" ++ tag

/-- The ref string `refs/tags/<tag>` used by `createRef` and `deleteRef`. -/
def refsTagsRef (tag : String) : String := "refs/tags/" ++ tag

/-- The environment: the outcome each remote call would have if performed
(`none` / `.ok` = resolves, `some e` / `.error e` = rejects with `e`), plus
the glob expansion of `config.files` and the random stream. -/
structure Env where
  tagRef : Except JsValue String
  listReleasesRes : Except JsValue (List Release)
  deleteReleaseRes : Nat → Option JsValue
  updateRefRes : Option JsValue
  createTagRes : Option JsValue
  createRefRes : Option JsValue
  createReleaseRes : Except JsValue Nat
  glob : List String
  attempt : Nat → Nat → Option JsValue
  rand : Nat → ℚ

/-- A step of the run: the trace of calls it performs plus its outcome. -/
def M (α : Type) : Type := List Effect × Except RunError α

/-- Sequencing: on error the tail never runs; on success traces concatenate. -/
def seqM {α β : Type} (a : M α) (k : α → M β) : M β :=
  match a.2 with
  | .error e => (a.1, .error e)
  | .ok x => (a.1 ++ (k x).1, (k x).2)

@[simp] theorem seqM_error {α β : Type} (tr : List Effect) (e : RunError)
    (k : α → M β) : seqM (tr, Except.error e) k = (tr, Except.error e) := rfl

@[simp] theorem seqM_ok {α β : Type} (tr : List Effect) (x : α) (k : α → M β) :
    seqM (tr, Except.ok x) k = (tr ++ (k x).1, (k x).2) := rfl

/-! ## The `run` pipeline -/

/-- Fetching the tag ref `tags/<tag>`: an `HttpError` with status 404 leaves
`existingTag` undefined; any other failure is wrapped as a fatal
`ActionError`.  On success, the existing tag's sha is returned. -/
def checkTagStage (cfg : Config) (env : Env) : M (Option String) :=
  ([Effect.getRef (tagsRef cfg.tag)],
    match env.tagRef with
    | .ok sha => Except.ok (some sha)
    | .error e =>
      if isHttpError e then
        if e.status ≠ 404 then Except.error (RunError.action msgVerify (some e))
        else Except.ok none
      else Except.error (RunError.action msgVerifyUnknown (some e)))

/-- `if (existingTag != null && config.strategy === Strategy.FailFast) throw`. -/
def failFastStage (cfg : Config) (existing : Option String) : M Unit :=
  ([], if existing.isSome ∧ cfg.strategy = Strategy.failFast
       then Except.error (RunError.action msgTagExists none)
       else Except.ok ())

/-- `listReleases`; a rejection propagates as an uncaught error. -/
def listStage (env : Env) : M (List Release) :=
  ([Effect.listReleases],
    match env.listReleasesRes with
    | .ok rs => Except.ok rs
    | .error e => Except.error (RunError.unhandled e))

/-- The release-cleanup loop: every listed release whose `tag_name` equals the
configured tag is deleted; a rejected delete propagates uncaught. -/
def cleanupStage (env : Env) (tag : String) : List Release → M Unit
  | [] => ([], Except.ok ())
  | r :: rest =>
    if r.tag_name = tag then
      match env.deleteReleaseRes r.id with
      | none =>
        let m := cleanupStage env tag rest
        (Effect.deleteRelease r.id :: m.1, m.2)
      | some e => ([Effect.deleteRelease r.id], Except.error (RunError.unhandled e))
    else cleanupStage env tag rest

/-- The undo action registered for the tag mutation: no-op, restore the ref to
its original sha, or delete the newly created ref. -/
inductive UndoAction where
  | noop
  | revert (oldSha : String)
  | deleteNewRef
deriving DecidableEq

/-- The calls made when the undo action is invoked.  The `revert` closure
calls `updateRef` without `force` (modelled as `force = false`). -/
def undoEffects (tag : String) : UndoAction → List Effect
  | .noop => []
  | .revert sha => [Effect.updateRef (tagsRef tag) sha false]
  | .deleteNewRef => [Effect.deleteRef (refsTagsRef tag)]

/-- The strategy-dependent tag mutation: no-op under `UseExistingTag`;
otherwise force-update the existing ref, or create a tag object and its ref.
Failures are wrapped as fatal `ActionError`s; the matching undo action is
registered on success. -/
def tagStage (cfg : Config) (env : Env) (existing : Option String) : M UndoAction :=
  match cfg with
  | .existingTag _ => ([], Except.ok UndoAction.noop)
  | .withTarget s targetSha base =>
    if s = Strategy.useExistingTag then ([], Except.ok UndoAction.noop)
    else
      match existing with
      | some oldSha =>
        ([Effect.updateRef (tagsRef base.tag) targetSha true],
          match env.updateRefRes with
          | none => Except.ok (UndoAction.revert oldSha)
          | some e => Except.error (RunError.action msgUpdateTag (some e)))
      | none =>
        match env.createTagRes with
        | some e =>
          ([Effect.createTag base.tag base.tagMessage targetSha],
            Except.error (RunError.action msgCreateTag (some e)))
        | none =>
          ([Effect.createTag base.tag base.tagMessage targetSha,
            Effect.createRef (refsTagsRef base.tag) targetSha],
            match env.createRefRes with
            | none => Except.ok UndoAction.deleteNewRef
            | some e => Except.error (RunError.action msgCreateTag (some e)))

/-- `createRelease`: on failure the undo action is invoked (its own failure is
logged and swallowed) and a fatal `ActionError` is raised. -/
def createReleaseStage (cfg : Config) (env : Env) (undo : UndoAction) : M Nat :=
  match env.createReleaseRes with
  | .ok relId => ([Effect.createRelease cfg.tag], Except.ok relId)
  | .error e =>
    (Effect.createRelease cfg.tag :: undoEffects cfg.tag undo,
      Except.error (RunError.action msgCreateRelease (some e)))

/-- The JS `Error` produced by `unreachable()`. -/
def unreachableError : JsValue := ⟨true, "Error", false, false, 0⟩

/-- One file of the upload loop: run the upload closure under
`runWithRetry(4, 4000, ...)`.  `env.attempt idx k` is the outcome of the
`k`-th invocation of the closure for file index `idx` (the closure's inner
asset-cleanup and upload calls are abstracted to this single outcome).  On
retry exhaustion: delete the created release (failure swallowed), invoke the
undo action (failure swallowed), and raise a fatal upload `ActionError`
carrying the last attempt's error. -/
def uploadFile (cfg : Config) (env : Env) (undo : UndoAction) (relId : Nat)
    (idx : Nat) (file : String) : M Unit :=
  match runWithRetry 4 4000 (env.attempt idx) env.rand with
  | some res =>
    if res.success then ((List.range res.calls).map (Effect.uploadAttempt idx), Except.ok ())
    else
      ((List.range res.calls).map (Effect.uploadAttempt idx) ++
        (Effect.deleteRelease relId :: undoEffects cfg.tag undo),
        Except.error (RunError.action (msgUpload ++ file) res.err))
  | none => ([], Except.error (RunError.unhandled unreachableError))

/-- The upload loop over the globbed files, in order. -/
def uploadStage (cfg : Config) (env : Env) (undo : UndoAction) (relId : Nat) :
    Nat → List String → M Unit
  | _, [] => ([], Except.ok ())
  | idx, file :: rest =>
    seqM (uploadFile cfg env undo relId idx file)
      (fun _ => uploadStage cfg env undo relId (idx + 1) rest)

/-- The tail of `run` from the tag mutation on: tag mutation, release
creation, asset upload, output. -/
def runFromTag (cfg : Config) (env : Env) (existing : Option String) : M Unit :=
  seqM (tagStage cfg env existing) (fun undo =>
  seqM (createReleaseStage cfg env undo) (fun relId =>
  seqM (uploadStage cfg env undo relId 0 env.glob) (fun _ =>
  ([Effect.setOutput relId], Except.ok ()))))

/-- The tail of `run` from the release listing on: list releases, release
cleanup, then `runFromTag`. -/
def runFromList (cfg : Config) (env : Env) (existing : Option String) : M Unit :=
  seqM (listStage env) (fun rs =>
  seqM (cleanupStage env cfg.tag rs) (fun _ =>
  runFromTag cfg env existing))

/-- The body of `run` after `init`: tag-existence check, fail-fast check,
release cleanup, tag mutation, release creation, asset upload, output. -/
def run (cfg : Config) (env : Env) : M Unit :=
  seqM (checkTagStage cfg env) (fun existing =>
  seqM (failFastStage cfg existing) (fun _ =>
  runFromList cfg env existing))

/-! ## `init`: target resolution and validation -/

/-- `target.replace(/^refs\//, "")`: strip a single leading `refs/` segment
(the non-global anchored regex replaces at most one occurrence, at the very
start). -/
def stripRefs (t : String) : String :=
  if refsSlash.data.isPrefixOf t.data then String.mk (t.data.drop 5) else t

/-- Resolution of the `target` input: if it contains `/` it is treated as a
ref (stripping one leading `refs/`) and resolved remotely, a rejection being
wrapped as a fatal `ActionError`; otherwise it is used verbatim as the sha,
with no remote call.  An absent input yields an absent `targetSha`. -/
def resolveTarget (target : Option String) (lookup : String → Except JsValue String) :
    M (Option String) :=
  match target with
  | none => ([], Except.ok none)
  | some t =>
    if '/' ∈ t.data then
      ([Effect.getRef (stripRefs t)],
        match lookup (stripRefs t) with
        | .ok sha => Except.ok (some sha)
        | .error e => Except.error (RunError.action msgResolveTarget (some e)))
    else ([], Except.ok (some t))

/-- The validation at the end of `init` (the `targetSha == null` /
`strategy === UseExistingTag` checks) and construction of the `Config`. -/
def validateTargetStrategy (strategy : Strategy) (targetSha : Option String)
    (base : ConfigBase) : Except RunError Config :=
  match targetSha with
  | none =>
    if strategy ≠ Strategy.useExistingTag then
      Except.error (RunError.inputParameterRequired targetParam)
    else Except.ok (Config.existingTag base)
  | some sha =>
    if strategy = Strategy.useExistingTag then
      Except.error (RunError.inputParameterIncompatibleStrategy targetParam strategy)
    else Except.ok (Config.withTarget strategy sha base)

/-- The tail of `init`: resolve `target`, then validate it against the
strategy and build the `Config`. -/
def initConfig (target : Option String) (strategy : Strategy) (base : ConfigBase)
    (lookup : String → Except JsValue String) : M Config :=
  seqM (resolveTarget target lookup)
    (fun targetSha => ([], validateTargetStrategy strategy targetSha base))

/-! ## Trace helpers -/

theorem mem_seqM {α β : Type} {a : M α} {k : α → M β} {e : Effect}
    (h : e ∈ (seqM a k).1) : e ∈ a.1 ∨ ∃ x, a.2 = Except.ok x ∧ e ∈ (k x).1 := by
  unfold seqM at h
  rcases ha : a.2 with er | x <;> rw [ha] at h
  · exact Or.inl h
  · simp only [List.mem_append] at h
    rcases h with h | h
    · exact Or.inl h
    · exact Or.inr ⟨x, rfl, h⟩

/-- C2: with strategy `FailFast` and the tag-existence query finding the tag
present, the run fails with the fatal "tag already exists" error before any
tag or release mutation: the whole trace is the single tag lookup, so no
release deletion, no ref create/update, no tag-object creation, and no
release creation has occurred. -/
theorem c2_failFast_aborts (cfg : Config) (env : Env) (sha : String)
    (hs : cfg.strategy = Strategy.failFast) (ht : env.tagRef = Except.ok sha) :
    run cfg env = ([Effect.getRef (tagsRef cfg.tag)],
      Except.error (RunError.action msgTagExists none)) ∧
    (∀ id, Effect.deleteRelease id ∉ (run cfg env).1) ∧
    (∀ r s b, Effect.updateRef r s b ∉ (run cfg env).1) ∧
    (∀ tg m o, Effect.createTag tg m o ∉ (run cfg env).1) ∧
    (∀ r s, Effect.createRef r s ∉ (run cfg env).1) ∧
    (∀ r, Effect.deleteRef r ∉ (run cfg env).1) ∧
    (∀ tg, Effect.createRelease tg ∉ (run cfg env).1) ∧
    (∀ i k, Effect.uploadAttempt i k ∉ (run cfg env).1) := by
  have hrun : run cfg env = ([Effect.getRef (tagsRef cfg.tag)],
      Except.error (RunError.action msgTagExists none)) := by
    unfold run checkTagStage failFastStage
    simp [ht, hs]
  refine ⟨hrun, ?_, ?_, ?_, ?_, ?_, ?_, ?_⟩ <;> intros <;> rw [hrun] <;> simp

/-- C8: in the tag-existence query, an `HttpError` with status 404 is a valid
non-error outcome (the tag is treated as absent and the run proceeds to list
releases); an `HttpError` with any other status raises the fatal "failed to
verify if tag already exists" error, and a non-HTTP error raises the fatal
"... (unknown error)" variant, each aborting the run. -/
theorem c8_tag_check_errors (cfg : Config) (env : Env) (e : JsValue)
    (h : env.tagRef = Except.error e) :
    (isHttpError e = true → e.status = 404 →
      (checkTagStage cfg env).2 = Except.ok none ∧
      Effect.listReleases ∈ (run cfg env).1) ∧
    (isHttpError e = true → e.status ≠ 404 →
      (run cfg env).2 = Except.error (RunError.action msgVerify (some e))) ∧
    (isHttpError e = false →
      (run cfg env).2 = Except.error (RunError.action msgVerifyUnknown (some e))) := by
  refine ⟨?_, ?_, ?_⟩
  · intro hhttp hst
    constructor
    · simp [checkTagStage, h, hhttp, hst]
    · rcases hl : env.listReleasesRes with el | rs <;>
        simp [run, runFromList, checkTagStage, failFastStage, listStage, seqM, h, hhttp, hst, hl]
  · intro hhttp hst
    simp [run, checkTagStage, seqM, h, hhttp, hst]
  · intro hhttp
    simp [run, checkTagStage, seqM, h, hhttp]

/-- C3: configuration validation establishes the invariant that `targetSha`
is present iff the strategy is not `UseExistingTag`: with no `targetSha` and
a strategy other than `UseExistingTag` it raises the missing-required-
parameter error for `target`; with a `targetSha` under `UseExistingTag` it
raises the incompatible-parameter error; and every `Config` value `init`
returns satisfies the iff. -/
theorem c3_config_invariant (strategy : Strategy) (base : ConfigBase)
    (target : Option String) (lookup : String → Except JsValue String) :
    (strategy ≠ Strategy.useExistingTag →
      validateTargetStrategy strategy none base =
        Except.error (RunError.inputParameterRequired targetParam)) ∧
    (∀ sha, strategy = Strategy.useExistingTag →
      validateTargetStrategy strategy (some sha) base =
        Except.error (RunError.inputParameterIncompatibleStrategy targetParam strategy)) ∧
    (∀ cfg, (initConfig target strategy base lookup).2 = Except.ok cfg →
      (cfg.targetSha.isSome = true ↔ cfg.strategy ≠ Strategy.useExistingTag)) := by
  refine ⟨?_, ?_, ?_⟩
  · intro hs; simp [validateTargetStrategy, hs]
  · intro sha hs; simp [validateTargetStrategy, hs]
  · intro cfg hcfg
    unfold initConfig seqM at hcfg
    rcases hres : (resolveTarget target lookup).2 with er | ts <;> rw [hres] at hcfg
    · simp at hcfg
    · simp only [] at hcfg
      have hval : validateTargetStrategy strategy ts base = Except.ok cfg := hcfg
      cases ts with
      | none =>
        by_cases hsu : strategy = Strategy.useExistingTag
        · rw [validateTargetStrategy, if_neg (by simp [hsu])] at hval
          have : cfg = Config.existingTag base := by
            injection hval with h2; exact h2.symm
          subst this
          simp [Config.targetSha, Config.strategy, hsu]
        · rw [validateTargetStrategy, if_pos hsu] at hval
          exact absurd hval (by simp)
      | some sha =>
        by_cases hsu : strategy = Strategy.useExistingTag
        · rw [validateTargetStrategy, if_pos hsu] at hval
          exact absurd hval (by simp)
        · rw [validateTargetStrategy, if_neg hsu] at hval
          have : cfg = Config.withTarget strategy sha base := by
            injection hval with h2; exact h2.symm
          subst this
          simp [Config.targetSha, Config.strategy, hsu]

/-- C7: target resolution.  If the `target` input contains `/`, one leading
`refs/` segment is stripped and the remainder is resolved remotely — the
resulting `targetSha` is the sha the lookup returns, and a lookup failure is
the fatal "failed to resolve target ref" error.  If it contains no `/`, the
input string is used verbatim as `targetSha` and no remote call is made
(empty trace). -/
theorem c7_target_resolution (t : String) (lookup : String → Except JsValue String) :
    ('/' ∈ t.data → ∀ sha, lookup (stripRefs t) = Except.ok sha →
      resolveTarget (some t) lookup =
        ([Effect.getRef (stripRefs t)], Except.ok (some sha))) ∧
    ('/' ∈ t.data → ∀ e, lookup (stripRefs t) = Except.error e →
      resolveTarget (some t) lookup =
        ([Effect.getRef (stripRefs t)],
          Except.error (RunError.action msgResolveTarget (some e)))) ∧
    (refsSlash.data.isPrefixOf t.data = true → stripRefs t = String.mk (t.data.drop 5)) ∧
    (refsSlash.data.isPrefixOf t.data = false → stripRefs t = t) ∧
    ('/' ∉ t.data →
      resolveTarget (some t) lookup = ([], Except.ok (some t))) := by
  refine ⟨?_, ?_, ?_, ?_, ?_⟩
  · intro hc sha hl; simp [resolveTarget, hc, hl]
  · intro hc e hl; simp [resolveTarget, hc, hl]
  · intro hp; simp [stripRefs, hp]
  · intro hp; simp [stripRefs, hp]
  · intro hc; simp [resolveTarget, hc]

theorem seqM_eq_error {α β : Type} {a : M α} {e : RunError} (k : α → M β)
    (h : a.2 = Except.error e) : seqM a k = (a.1, Except.error e) := by
  unfold seqM; rw [h]

theorem seqM_eq_ok {α β : Type} {a : M α} {x : α} (k : α → M β)
    (h : a.2 = Except.ok x) : seqM a k = (a.1 ++ (k x).1, (k x).2) := by
  unfold seqM; rw [h]

theorem listStage_eq (env : Env) (rs : List Release)
    (h : env.listReleasesRes = Except.ok rs) :
    listStage env = ([Effect.listReleases], Except.ok rs) := by
  simp [listStage, h]

theorem listStage_ok_inv (env : Env) (rs : List Release)
    (h : (listStage env).2 = Except.ok rs) : env.listReleasesRes = Except.ok rs := by
  rcases hl : env.listReleasesRes with el | rs' <;> simp [listStage, hl] at h
  · rw [h]

theorem createReleaseStage_ok_inv (cfg : Config) (env : Env) (undo : UndoAction)
    (x : Nat) (h : (createReleaseStage cfg env undo).2 = Except.ok x) :
    env.createReleaseRes = Except.ok x := by
  rcases hc : env.createReleaseRes with ec | relId <;> simp [createReleaseStage, hc] at h
  · rw [h]

/-- Every call in the cleanup loop's trace is the deletion of a listed release
whose `tag_name` matches. -/
theorem cleanup_trace_shape (env : Env) (tag : String) :
    ∀ rs, ∀ e ∈ (cleanupStage env tag rs).1,
      ∃ r ∈ rs, r.tag_name = tag ∧ e = Effect.deleteRelease r.id := by
  intro rs
  induction rs with
  | nil => intro e he; simp [cleanupStage] at he
  | cons r rest ih =>
    intro e he
    by_cases hr : r.tag_name = tag
    · rcases hd : env.deleteReleaseRes r.id with _ | e'
      · simp only [cleanupStage, if_pos hr, hd] at he
        rcases List.mem_cons.mp he with heq | htl
        · exact ⟨r, by simp, hr, heq⟩
        · obtain ⟨r', hr', htg, heq⟩ := ih e htl
          exact ⟨r', by simp [hr'], htg, heq⟩
      · simp only [cleanupStage, if_pos hr, hd, List.mem_singleton] at he
        exact ⟨r, by simp, hr, he⟩
    · simp only [cleanupStage, if_neg hr] at he
      obtain ⟨r', hr', htg, heq⟩ := ih e he
      exact ⟨r', by simp [hr'], htg, heq⟩

/-- If the cleanup loop completes, its trace is exactly the deletion of the
matching releases, in listing order. -/
theorem cleanup_ok_trace (env : Env) (tag : String) :
    ∀ rs, (cleanupStage env tag rs).2 = Except.ok () →
      (cleanupStage env tag rs).1 =
        (rs.filter (fun r => r.tag_name == tag)).map (fun r => Effect.deleteRelease r.id) := by
  intro rs
  induction rs with
  | nil => intro _; simp [cleanupStage]
  | cons r rest ih =>
    intro hok
    by_cases hr : r.tag_name = tag
    · rcases hd : env.deleteReleaseRes r.id with _ | e' <;>
        simp only [cleanupStage, if_pos hr, hd] at hok ⊢
      · simp [List.filter_cons, hr, ih hok]
      · simp at hok
    · simp only [cleanupStage, if_neg hr] at hok ⊢
      rw [ih hok]
      simp [List.filter_cons, hr]

/-- The tag-mutation stage only ever calls `updateRef`, `createTag`,
`createRef`. -/
theorem tagStage_trace_shape (cfg : Config) (env : Env) (existing : Option String) :
    ∀ e ∈ (tagStage cfg env existing).1,
      (∃ r s b, e = Effect.updateRef r s b) ∨ (∃ tg m o, e = Effect.createTag tg m o) ∨
      (∃ r s, e = Effect.createRef r s) := by
  intro e he
  rcases cfg with b | ⟨s, sha, b⟩
  · simp [tagStage] at he
  · by_cases hs : s = Strategy.useExistingTag
    · simp [tagStage, hs] at he
    · rcases existing with _ | old
      · rcases hct : env.createTagRes with _ | e'
        · simp [tagStage, hs, hct] at he
          rcases he with he | he <;> simp [he]
        · simp [tagStage, hs, hct] at he
          simp [he]
      · simp [tagStage, hs] at he
        simp [he]

/-- Invoking an undo action only ever calls `updateRef` or `deleteRef`. -/
theorem undoEffects_shape (tag : String) (u : UndoAction) :
    ∀ e ∈ undoEffects tag u,
      (∃ r s b, e = Effect.updateRef r s b) ∨ (∃ r, e = Effect.deleteRef r) := by
  intro e he
  rcases u with _ | old | _ <;> simp [undoEffects] at he <;> simp [he]

/-- The release-creation stage's trace is the `createRelease` call, followed
(on failure) by the undo action's calls. -/
theorem createReleaseStage_trace_shape (cfg : Config) (env : Env) (undo : UndoAction) :
    ∀ e ∈ (createReleaseStage cfg env undo).1,
      e = Effect.createRelease cfg.tag ∨ e ∈ undoEffects cfg.tag undo := by
  intro e he
  rcases hc : env.createReleaseRes with ec | relId <;> simp [createReleaseStage, hc] at he
  · rcases he with he | he
    · exact Or.inl he
    · exact Or.inr he
  · exact Or.inl he

/-- The trace of one file's upload: invocations of the upload closure,
followed (on retry exhaustion) by the release deletion and the undo calls. -/
theorem uploadFile_trace_shape (cfg : Config) (env : Env) (undo : UndoAction)
    (relId : Nat) (idx : Nat) (file : String) :
    ∀ e ∈ (uploadFile cfg env undo relId idx file).1,
      (∃ k, e = Effect.uploadAttempt idx k) ∨ e = Effect.deleteRelease relId ∨
      e ∈ undoEffects cfg.tag undo := by
  intro e he
  unfold uploadFile at he
  rcases hrw : runWithRetry 4 4000 (env.attempt idx) env.rand with _ | res <;>
    rw [hrw] at he
  · simp at he
  · by_cases hs : res.success = true
    · simp [hs] at he
      obtain ⟨k, _, heq⟩ := he
      exact Or.inl ⟨k, heq.symm⟩
    · simp [hs] at he
      rcases he with ⟨k, _, heq⟩ | he | he
      · exact Or.inl ⟨k, heq.symm⟩
      · exact Or.inr (Or.inl he)
      · exact Or.inr (Or.inr he)

/-- The trace of the upload loop: closure invocations, possibly one deletion
of the created release and the undo calls. -/
theorem uploadStage_trace_shape (cfg : Config) (env : Env) (undo : UndoAction)
    (relId : Nat) :
    ∀ fs idx, ∀ e ∈ (uploadStage cfg env undo relId idx fs).1,
      (∃ i k, e = Effect.uploadAttempt i k) ∨ e = Effect.deleteRelease relId ∨
      e ∈ undoEffects cfg.tag undo := by
  intro fs
  induction fs with
  | nil => intro idx e he; simp [uploadStage] at he
  | cons f rest ih =>
    intro idx e he
    rw [uploadStage] at he
    rcases mem_seqM he with h | ⟨x, hx, h⟩
    · rcases uploadFile_trace_shape cfg env undo relId idx f e h with ⟨k, hk⟩ | h | h
      · exact Or.inl ⟨idx, k, hk⟩
      · exact Or.inr (Or.inl h)
      · exact Or.inr (Or.inr h)
    · exact ih (idx + 1) e h

/-- C4: whenever execution reaches the release-cleanup step (the release
listing succeeded with `rs`), (i) every release deletion the whole run ever
performs targets either a listed release whose `tag_name` equals the
configured tag, or the release the run itself created (the upload-failure
path); and (ii) if a `createRelease` call occurs, the trace decomposes as the
tag lookup, the listing, then the deletions of exactly the matching listed
releases — every matching release among them — before everything else, so
every matching release is deleted before the new release is created and no
other listed release is ever deleted. -/
theorem c4_cleanup_deletes_matching (cfg : Config) (env : Env) (rs : List Release)
    (hls : env.listReleasesRes = Except.ok rs) :
    (∀ id, Effect.deleteRelease id ∈ (run cfg env).1 →
      (∃ r ∈ rs, r.tag_name = cfg.tag ∧ r.id = id) ∨
      env.createReleaseRes = Except.ok id) ∧
    (∀ tg, Effect.createRelease tg ∈ (run cfg env).1 →
      ∃ post, (run cfg env).1 =
        Effect.getRef (tagsRef cfg.tag) :: Effect.listReleases ::
          (((rs.filter (fun r => r.tag_name == cfg.tag)).map
            (fun r => Effect.deleteRelease r.id)) ++ post) ∧
        (∀ r ∈ rs, r.tag_name = cfg.tag →
          Effect.deleteRelease r.id ∈
            (rs.filter (fun r => r.tag_name == cfg.tag)).map
              (fun r => Effect.deleteRelease r.id)) ∧
        (∀ tg2, Effect.createRelease tg2 ∉
          ((rs.filter (fun r => r.tag_name == cfg.tag)).map
            (fun r => Effect.deleteRelease r.id)))) := by
  constructor
  · intro id hmem
    unfold run at hmem
    rcases mem_seqM hmem with h | ⟨existing, _, h⟩
    · simp [checkTagStage] at h
    · rcases mem_seqM h with h | ⟨_, _, h⟩
      · simp [failFastStage] at h
      · unfold runFromList at h
        rcases mem_seqM h with h | ⟨rs', hrs', h⟩
        · simp [listStage] at h
        · have hrs : rs' = rs := by
            have h2 := listStage_ok_inv env rs' hrs'
            rw [hls] at h2
            injection h2 with h3
            exact h3.symm
          subst hrs
          rcases mem_seqM h with h | ⟨_, _, h⟩
          · obtain ⟨r, hr, htg, heq⟩ := cleanup_trace_shape env cfg.tag rs' _ h
            injection heq with hid
            exact Or.inl ⟨r, hr, htg, hid.symm⟩
          · unfold runFromTag at h
            rcases mem_seqM h with h | ⟨undo, _, h⟩
            · rcases tagStage_trace_shape cfg env existing _ h with
                ⟨a, b, c, heq⟩ | ⟨a, b, c, heq⟩ | ⟨a, b, heq⟩ <;> simp at heq
            · rcases mem_seqM h with h | ⟨relId, hrel, h⟩
              · rcases createReleaseStage_trace_shape cfg env undo _ h with heq | hu
                · simp at heq
                · rcases undoEffects_shape cfg.tag undo _ hu with
                    ⟨a, b, c, heq⟩ | ⟨a, heq⟩ <;> simp at heq
              · have hcr : env.createReleaseRes = Except.ok relId :=
                  createReleaseStage_ok_inv cfg env undo relId hrel
                rcases mem_seqM h with h | ⟨_, _, h⟩
                · rcases uploadStage_trace_shape cfg env undo relId env.glob 0 _ h with
                    ⟨i, k, heq⟩ | heq | hu
                  · simp at heq
                  · injection heq with hid
                    exact Or.inr (by rw [hid]; exact hcr)
                  · rcases undoEffects_shape cfg.tag undo _ hu with
                      ⟨a, b, c, heq⟩ | ⟨a, heq⟩ <;> simp at heq
                · simp at h
  · intro tg hmem
    rcases hchk : (checkTagStage cfg env).2 with ec | existing
    · have hr : run cfg env = ((checkTagStage cfg env).1, Except.error ec) := by
        unfold run; exact seqM_eq_error _ hchk
      rw [hr] at hmem
      simp [checkTagStage] at hmem
    · by_cases hffc : existing.isSome ∧ cfg.strategy = Strategy.failFast
      · have hffe : (failFastStage cfg existing).2 =
            Except.error (RunError.action msgTagExists none) := by
          simp [failFastStage, hffc]
        have hr : run cfg env =
            ((checkTagStage cfg env).1 ++ (failFastStage cfg existing).1,
              Except.error (RunError.action msgTagExists none)) := by
          unfold run
          simp only [seqM_eq_ok _ hchk, seqM_eq_error _ hffe]
        rw [hr] at hmem
        simp [checkTagStage, failFastStage] at hmem
      · have hffok : (failFastStage cfg existing).2 = Except.ok () := by
          simp [failFastStage, hffc]
        have hrun2 : run cfg env =
            ((checkTagStage cfg env).1 ++
              ((failFastStage cfg existing).1 ++ (runFromList cfg env existing).1),
              (runFromList cfg env existing).2) := by
          unfold run
          simp only [seqM_eq_ok _ hchk, seqM_eq_ok _ hffok]
        have hlq : listStage env = ([Effect.listReleases], Except.ok rs) :=
          listStage_eq env rs hls
        rcases hcl : (cleanupStage env cfg.tag rs).2 with ecl | ⟨⟩
        · have hrl : runFromList cfg env existing =
              ([Effect.listReleases] ++ (cleanupStage env cfg.tag rs).1,
                Except.error ecl) := by
            unfold runFromList
            rw [hlq, seqM_ok, seqM_eq_error _ hcl]
          rw [hrun2, hrl] at hmem
          simp [checkTagStage, failFastStage] at hmem
          obtain ⟨r, hr, htg2, heq⟩ := cleanup_trace_shape env cfg.tag rs _ hmem
          simp at heq
        · have hrl : runFromList cfg env existing =
              ([Effect.listReleases] ++
                ((cleanupStage env cfg.tag rs).1 ++ (runFromTag cfg env existing).1),
                (runFromTag cfg env existing).2) := by
            unfold runFromList
            rw [hlq, seqM_ok]
            simp only [seqM_eq_ok _ hcl]
          refine ⟨(runFromTag cfg env existing).1, ?_, ?_, ?_⟩
          · rw [hrun2, hrl, cleanup_ok_trace env cfg.tag rs hcl]
            simp [checkTagStage, failFastStage]
          · intro r hr htg2
            exact List.mem_map_of_mem _ (List.mem_filter.mpr ⟨hr, by simp [htg2]⟩)
          · intro tg2 hmem2
            simp only [List.mem_map] at hmem2
            obtain ⟨r, _, heq⟩ := hmem2
            simp at heq

/-- If all 4 attempts for a file fail, `uploadFile` performs the 4 closure
invocations, deletes the created release, invokes the undo action, and raises
the fatal upload error carrying the 4th attempt's error. -/
theorem uploadFile_fail (cfg : Config) (env : Env) (undo : UndoAction) (relId : Nat)
    (idx : Nat) (file : String) (hfail : ∀ k, k < 4 → env.attempt idx k ≠ none) :
    uploadFile cfg env undo relId idx file =
      ((List.range 4).map (Effect.uploadAttempt idx) ++
        (Effect.deleteRelease relId :: undoEffects cfg.tag undo),
        Except.error (RunError.action (msgUpload ++ file) (env.attempt idx 3))) := by
  obtain ⟨res, hres, h1, h2, hsl, hpre, hsucc, hfail2⟩ :=
    retryGo_char 4000 (env.attempt idx) env.rand 4 0 (by omega)
  have hsb : res.success = false := by
    cases hsb2 : res.success
    · rfl
    · obtain ⟨hnone, _⟩ := hsucc hsb2
      exact absurd hnone (hfail _ (by omega))
  obtain ⟨hcalls, herr, _⟩ := hfail2 hsb
  unfold uploadFile
  have hrw : runWithRetry 4 4000 (env.attempt idx) env.rand = some res := hres
  simp only [hrw, hsb, Bool.false_eq_true, if_false, hcalls, herr]

/-- If some of the first 4 attempts for a file succeeds, `uploadFile`
performs at most 4 closure invocations and returns successfully. -/
theorem uploadFile_succ (cfg : Config) (env : Env) (undo : UndoAction) (relId : Nat)
    (idx : Nat) (file : String) (hs : ∃ k, k < 4 ∧ env.attempt idx k = none) :
    ∃ c, c ≤ 4 ∧ uploadFile cfg env undo relId idx file =
      ((List.range c).map (Effect.uploadAttempt idx), Except.ok ()) := by
  obtain ⟨res, hres, h1, h2, hsl, hpre, hsucc, hfail2⟩ :=
    retryGo_char 4000 (env.attempt idx) env.rand 4 0 (by omega)
  have hsb : res.success = true := by
    cases hsb2 : res.success
    · obtain ⟨hcalls, herr, hne⟩ := hfail2 hsb2
      obtain ⟨k, hk, hnone⟩ := hs
      rcases Nat.lt_or_ge (k + 1) 4 with hlt | hge
      · exact absurd hnone (by simpa using hpre k (by omega))
      · have hk3 : k = 3 := by omega
        subst hk3
        exact absurd hnone (by simpa using hne)
    · rfl
  refine ⟨res.calls, h2, ?_⟩
  unfold uploadFile
  have hrw : runWithRetry 4 4000 (env.attempt idx) env.rand = some res := hres
  simp only [hrw, hsb, if_true]

/-- The upload loop when the `j`-th file exhausts its retries and all earlier
files succeed: the loop's trace is the earlier files' attempts, then the
failing file's 4 attempts, the release deletion and the undo calls, and the
result is the fatal upload error; no later file is ever attempted. -/
theorem uploadStage_fail (cfg : Config) (env : Env) (undo : UndoAction) (relId : Nat) :
    ∀ fs idx j, (hj : j < fs.length) →
      (∀ i, i < j → ∃ k, k < 4 ∧ env.attempt (idx + i) k = none) →
      (∀ k, k < 4 → env.attempt (idx + j) k ≠ none) →
      ∃ pre, uploadStage cfg env undo relId idx fs =
        (pre ++ ((List.range 4).map (Effect.uploadAttempt (idx + j)) ++
          (Effect.deleteRelease relId :: undoEffects cfg.tag undo)),
          Except.error (RunError.action (msgUpload ++ fs.get ⟨j, hj⟩)
            (env.attempt (idx + j) 3))) ∧
        (∀ i k, Effect.uploadAttempt i k ∈ pre → i < idx + j) := by
  intro fs
  induction fs with
  | nil =>
    intro idx j hj _ _
    exact absurd hj (by simp)
  | cons f rest ih =>
    intro idx j hj hpre hfail
    cases j with
    | zero =>
      have hf := uploadFile_fail cfg env undo relId idx f (by simpa using hfail)
      refine ⟨[], ?_, ?_⟩
      · simp only [uploadStage, hf, seqM_error]
        simp
      · intro i k h; simp at h
    | succ j' =>
      obtain ⟨k0, hk0, hnone⟩ := hpre 0 (by omega)
      have hsucc0 : ∃ k, k < 4 ∧ env.attempt idx k = none :=
        ⟨k0, hk0, by simpa using hnone⟩
      obtain ⟨c, hc, hf⟩ := uploadFile_succ cfg env undo relId idx f hsucc0
      have hj' : j' < rest.length := by simp at hj; omega
      have hpre' : ∀ i, i < j' → ∃ k, k < 4 ∧ env.attempt (idx + 1 + i) k = none := by
        intro i hi
        obtain ⟨k, hk, hn⟩ := hpre (i + 1) (by omega)
        exact ⟨k, hk, by rwa [show idx + (i + 1) = idx + 1 + i from by omega] at hn⟩
      have hfail' : ∀ k, k < 4 → env.attempt (idx + 1 + j') k ≠ none := by
        intro k hk
        have := hfail k hk
        rwa [show idx + (j' + 1) = idx + 1 + j' from by omega] at this
      obtain ⟨pre', heq, hmem⟩ := ih (idx + 1) j' hj' hpre' hfail'
      refine ⟨(List.range c).map (Effect.uploadAttempt idx) ++ pre', ?_, ?_⟩
      · simp only [uploadStage, hf, seqM_ok, heq]
        have hidx : idx + 1 + j' = idx + (j' + 1) := by omega
        simp [hidx, List.append_assoc]
      · intro i k h
        rcases List.mem_append.mp h with h | h
        · obtain ⟨a, _, heq2⟩ := List.mem_map.mp h
          injection heq2 with hidx2 _
          omega
        · have := hmem i k h
          omega

/-- C5: if, having reached the upload loop (tag check passed, no fail-fast
abort, cleanup, tag mutation and release creation succeeded), every one of
the 4 upload attempts for the `j`-th globbed file fails while each earlier
file succeeded, then the run's trace ends with the failing file's 4 attempts,
the deletion of the just-created release, and the undo action's calls (both
best-effort: their own failure changes nothing), the run's result is the
fatal upload error carrying the 4th (last) attempt's underlying error, and no
upload attempt for any file after the failing one appears anywhere in the
trace. -/
theorem c5_upload_exhaustion_aborts (cfg : Config) (env : Env)
    (existing : Option String) (rs : List Release) (undo : UndoAction)
    (relId : Nat) (fs : List String) (j : Nat)
    (hchk : (checkTagStage cfg env).2 = Except.ok existing)
    (hff : ¬(existing.isSome ∧ cfg.strategy = Strategy.failFast))
    (hls : env.listReleasesRes = Except.ok rs)
    (hcl : (cleanupStage env cfg.tag rs).2 = Except.ok ())
    (htag : (tagStage cfg env existing).2 = Except.ok undo)
    (hcr : env.createReleaseRes = Except.ok relId)
    (hglob : env.glob = fs)
    (hj : j < fs.length)
    (hpre : ∀ i, i < j → ∃ k, k < 4 ∧ env.attempt i k = none)
    (hfail : ∀ k, k < 4 → env.attempt j k ≠ none) :
    ∃ pre, run cfg env =
      (pre ++ ((List.range 4).map (Effect.uploadAttempt j) ++
        (Effect.deleteRelease relId :: undoEffects cfg.tag undo)),
        Except.error (RunError.action (msgUpload ++ fs.get ⟨j, hj⟩)
          (env.attempt j 3))) ∧
      (∀ i k, j < i → Effect.uploadAttempt i k ∉ (run cfg env).1) := by
  have hpre0 : ∀ i, i < j → ∃ k, k < 4 ∧ env.attempt (0 + i) k = none := by
    intro i hi; simpa using hpre i hi
  have hfail0 : ∀ k, k < 4 → env.attempt (0 + j) k ≠ none := by
    intro k hk; simpa using hfail k hk
  obtain ⟨preU, hequ, hmemU⟩ := uploadStage_fail cfg env undo relId fs 0 j hj hpre0 hfail0
  have hffok : (failFastStage cfg existing).2 = Except.ok () := by
    simp [failFastStage, hff]
  have hcrel : createReleaseStage cfg env undo =
      ([Effect.createRelease cfg.tag], Except.ok relId) := by
    simp [createReleaseStage, hcr]
  have hupE : (uploadStage cfg env undo relId 0 fs).2 =
      Except.error (RunError.action (msgUpload ++ fs.get ⟨j, hj⟩)
        (env.attempt (0 + j) 3)) := by
    rw [hequ]
  have hrt : runFromTag cfg env existing =
      ((tagStage cfg env existing).1 ++
        ([Effect.createRelease cfg.tag] ++ (uploadStage cfg env undo relId 0 fs).1),
        (uploadStage cfg env undo relId 0 fs).2) := by
    unfold runFromTag
    rw [hglob]
    simp only [seqM_eq_ok _ htag, hcrel, seqM_ok, seqM_eq_error _ hupE]
    rw [hupE]
  have hrl : runFromList cfg env existing =
      ([Effect.listReleases] ++
        ((cleanupStage env cfg.tag rs).1 ++ (runFromTag cfg env existing).1),
        (runFromTag cfg env existing).2) := by
    unfold runFromList
    rw [listStage_eq env rs hls, seqM_ok]
    simp only [seqM_eq_ok _ hcl]
  have hrun : run cfg env =
      ((checkTagStage cfg env).1 ++
        ((failFastStage cfg existing).1 ++ (runFromList cfg env existing).1),
        (runFromList cfg env existing).2) := by
    unfold run
    simp only [seqM_eq_ok _ hchk, seqM_eq_ok _ hffok]
  have hup1 : (uploadStage cfg env undo relId 0 fs).1 =
      preU ++ ((List.range 4).map (Effect.uploadAttempt (0 + j)) ++
        (Effect.deleteRelease relId :: undoEffects cfg.tag undo)) := by
    rw [hequ]
  refine ⟨(checkTagStage cfg env).1 ++ [Effect.listReleases] ++
    (cleanupStage env cfg.tag rs).1 ++ (tagStage cfg env existing).1 ++
    [Effect.createRelease cfg.tag] ++ preU, ?_, ?_⟩
  · rw [hrun, hrl, hrt, hupE, hup1]
    simp [failFastStage, List.append_assoc]
  · intro i k hji hmem
    unfold run at hmem
    rcases mem_seqM hmem with h | ⟨ex', hex', h⟩
    · simp [checkTagStage] at h
    · have hexx : ex' = existing := by
        rw [hchk] at hex'
        injection hex' with h2
        exact h2.symm
      subst hexx
      rcases mem_seqM h with h | ⟨_, _, h⟩
      · simp [failFastStage] at h
      · unfold runFromList at h
        rcases mem_seqM h with h | ⟨rs', hrs', h⟩
        · simp [listStage] at h
        · rcases mem_seqM h with h | ⟨_, _, h⟩
          · obtain ⟨r, _, _, heq⟩ := cleanup_trace_shape env cfg.tag rs' _ h
            simp at heq
          · unfold runFromTag at h
            rcases mem_seqM h with h | ⟨undo', hundo', h⟩
            · rcases tagStage_trace_shape cfg env ex' _ h with
                ⟨a, b, c, heq⟩ | ⟨a, b, c, heq⟩ | ⟨a, b, heq⟩ <;> simp at heq
            · have hundox : undo' = undo := by
                rw [htag] at hundo'
                injection hundo' with h2
                exact h2.symm
              subst hundox
              rcases mem_seqM h with h | ⟨relId', hrel', h⟩
              · rcases createReleaseStage_trace_shape cfg env undo' _ h with heq | hu
                · simp at heq
                · rcases undoEffects_shape cfg.tag undo' _ hu with
                    ⟨a, b, c, heq⟩ | ⟨a, heq⟩ <;> simp at heq
              · have hrelx : relId' = relId := by
                  rw [hcrel] at hrel'
                  injection hrel' with h2
                  exact h2.symm
                subst hrelx
                rcases mem_seqM h with h | ⟨_, _, h⟩
                · rw [hglob, hup1] at h
                  rcases List.mem_append.mp h with h | h
                  · have := hmemU i k h
                    omega
                  · rcases List.mem_append.mp h with h | h
                    · obtain ⟨a, _, heq⟩ := List.mem_map.mp h
                      injection heq with h1 h2
                      omega
                    · rcases List.mem_cons.mp h with heq | h
                      · simp at heq
                      · rcases undoEffects_shape cfg.tag undo' _ h with
                          ⟨a, b, c, heq⟩ | ⟨a, heq⟩ <;> simp at heq
                · simp at h

theorem mem_seqM_left {α β : Type} {a : M α} (k : α → M β) {e : Effect}
    (h : e ∈ a.1) : e ∈ (seqM a k).1 := by
  unfold seqM
  rcases a.2 with er | x <;> simp [h]

theorem mem_seqM_right {α β : Type} {a : M α} {k : α → M β} {x : α}
    (hx : a.2 = Except.ok x) {e : Effect} (h : e ∈ (k x).1) :
    e ∈ (seqM a k).1 := by
  unfold seqM
  rw [hx]
  simp [h]

/-- C1 (amended): with strategy `UseExistingTag` and the remote tag absent
(the tag lookup rejecting with an HTTP 404), the run does NOT fail at the
strategy step: it registers a no-op undo action with no tag mutation and,
once the cleanup succeeds and the release-creation call resolves, proceeds to
create the release against the configured tag name — the whole run performs
no `updateRef`, `createTag`, `createRef` or `deleteRef` call. -/
theorem c1_useExistingTag_absent_proceeds (base : ConfigBase) (env : Env)
    (e : JsValue) (rs : List Release) (relId : Nat)
    (h404 : env.tagRef = Except.error e) (hhttp : isHttpError e = true)
    (hst : e.status = 404)
    (hls : env.listReleasesRes = Except.ok rs)
    (hcl : (cleanupStage env base.tag rs).2 = Except.ok ())
    (hcr : env.createReleaseRes = Except.ok relId) :
    tagStage (Config.existingTag base) env none = ([], Except.ok UndoAction.noop) ∧
    Effect.createRelease base.tag ∈ (run (Config.existingTag base) env).1 ∧
    (∀ eff ∈ (run (Config.existingTag base) env).1,
      (∃ r, eff = Effect.getRef r) ∨ eff = Effect.listReleases ∨
      (∃ id, eff = Effect.deleteRelease id) ∨ (∃ t, eff = Effect.createRelease t) ∨
      (∃ i k, eff = Effect.uploadAttempt i k) ∨ (∃ id, eff = Effect.setOutput id)) := by
  have hchk : (checkTagStage (Config.existingTag base) env).2 = Except.ok none := by
    simp [checkTagStage, h404, hhttp, hst]
  have hffok : (failFastStage (Config.existingTag base) none).2 = Except.ok () := by
    simp [failFastStage]
  have htag2 : (tagStage (Config.existingTag base) env none).2 =
      Except.ok UndoAction.noop := rfl
  refine ⟨rfl, ?_, ?_⟩
  · unfold run
    apply mem_seqM_right hchk
    apply mem_seqM_right hffok
    unfold runFromList
    apply mem_seqM_right (show (listStage env).2 = Except.ok rs by simp [listStage, hls])
    apply mem_seqM_right hcl
    unfold runFromTag
    apply mem_seqM_right htag2
    apply mem_seqM_left
    simp [createReleaseStage, hcr, Config.tag, Config.base]
  · intro eff heff
    unfold run at heff
    rcases mem_seqM heff with h | ⟨ex', hex', h⟩
    · simp [checkTagStage] at h
      exact Or.inl ⟨_, h⟩
    · rcases mem_seqM h with h | ⟨_, _, h⟩
      · simp [failFastStage] at h
      · unfold runFromList at h
        rcases mem_seqM h with h | ⟨rs', hrs', h⟩
        · simp [listStage] at h
          exact Or.inr (Or.inl h)
        · rcases mem_seqM h with h | ⟨_, _, h⟩
          · obtain ⟨r, _, _, heq⟩ := cleanup_trace_shape env _ rs' _ h
            exact Or.inr (Or.inr (Or.inl ⟨r.id, heq⟩))
          · unfold runFromTag at h
            rcases mem_seqM h with h | ⟨undo', hundo', h⟩
            · simp [tagStage] at h
            · have hundox : undo' = UndoAction.noop := by
                have h2 : Except.ok UndoAction.noop = Except.ok undo' := hundo'
                injection h2 with h3
                exact h3.symm
              subst hundox
              rcases mem_seqM h with h | ⟨relId', hrel', h⟩
              · rcases createReleaseStage_trace_shape _ env _ _ h with heq | hu
                · exact Or.inr (Or.inr (Or.inr (Or.inl ⟨_, heq⟩)))
                · simp [undoEffects] at hu
              · rcases mem_seqM h with h | ⟨_, _, h⟩
                · rcases uploadStage_trace_shape _ env _ relId' env.glob 0 _ h with
                    ⟨i, k, heq⟩ | heq | hu
                  · exact Or.inr (Or.inr (Or.inr (Or.inr (Or.inl ⟨i, k, heq⟩))))
                  · exact Or.inr (Or.inr (Or.inl ⟨relId', heq⟩))
                  · simp [undoEffects] at hu
                · simp at h
                  exact Or.inr (Or.inr (Or.inr (Or.inr (Or.inr ⟨relId', h⟩))))

def baseC1 : ConfigBase := ⟨"o", "r", "v1", "m", "t", "b", false, false, none, []⟩

def envC1 : Env :=
  ⟨Except.error ⟨true, "HttpError", true, true, 404⟩, Except.ok [], fun _ => none,
    none, none, none, Except.ok 7, [], fun _ _ => none, fun _ => 0⟩

/-- C1 (counterexample to the claim as stated): a run with strategy
`UseExistingTag` whose remote tag is absent (HTTP 404 on the tag lookup) does
not fail — it completes successfully and performs the `createRelease` call,
so no fatal "nothing to reference" error exists on this path. -/
theorem c1_counterexample :
    (run (Config.existingTag baseC1) envC1).2 = Except.ok () ∧
    Effect.createRelease ("v1") ∈ (run (Config.existingTag baseC1) envC1).1 ∧
    ∀ er, (run (Config.existingTag baseC1) envC1).2 ≠ Except.error er := by
  have h : run (Config.existingTag baseC1) envC1 =
      ([Effect.getRef ("tags/v1"), Effect.listReleases,
        Effect.createRelease ("v1"), Effect.setOutput 7], Except.ok ()) := by
    rfl
  refine ⟨by rw [h], by rw [h]; simp, ?_⟩
  intro er her
  rw [h] at her
  exact Except.noConfusion her

/-! ## `getRepo`: parsing the `repository` input -/

/-- JavaScript line terminators, which `.` in a regex does not match. -/
def isLineTerminator (c : Char) : Bool :=
  c == '\n' || c == '\r' || c == '\u2028' || c == '\u2029'

/-- The characters removed by JavaScript `String.prototype.trim` (whitespace
and line terminators; of the Unicode `Zs` class only U+00A0 is modelled). -/
def isJsSpace (c : Char) : Bool :=
  c == ' ' || c == '\t' || c == '\n' || c == '\r' || c == '\x0b' || c == '\x0c' ||
  c == '\u00a0' || c == '\u2028' || c == '\u2029' || c == '\ufeff'

def jsTrim (s : String) : String :=
  String.mk (((s.data.dropWhile isJsSpace).reverse.dropWhile isJsSpace).reverse)

/-- Split a character list at its last `'/'` (the split the greedy first
group of `/^(.*)\/(.*)$/` produces), if any. -/
def splitLastSlash : List Char → Option (List Char × List Char)
  | [] => none
  | c :: rest =>
    match splitLastSlash rest with
    | some (a, b) => some (c :: a, b)
    | none => if c = '/' then some ([], rest) else none

/-- `input.match(/^(.*)\/(.*)$/)`: the anchored match succeeds iff the string
contains a `'/'` and no line terminator (JavaScript `.` does not match line
terminators), and then the greedy `(.*)` splits at the last `'/'`. -/
def jsMatchOwnerRepo (s : String) : Option (String × String) :=
  if s.data.all (fun c => !isLineTerminator c) then
    match splitLastSlash s.data with
    | some (a, b) => some (String.mk a, String.mk b)
    | none => none
  else none

inductive GetRepoResult where
  | ok (owner : String) (repo : String)
  | formatError
  | invalidOwner
  | invalidName
deriving DecidableEq

/-- `getRepo` from the main module, applied to the fetched `repository`
input: regex match (format error on failure), trim both groups, reject an
empty owner or name. -/
def getRepo (input : String) : GetRepoResult :=
  match jsMatchOwnerRepo input with
  | none => GetRepoResult.formatError
  | some (o, r) =>
    let owner := jsTrim o
    let repo := jsTrim r
    if owner = "" then GetRepoResult.invalidOwner
    else if repo = "" then GetRepoResult.invalidName
    else GetRepoResult.ok owner repo

theorem splitLastSlash_none : ∀ cs : List Char, '/' ∉ cs → splitLastSlash cs = none := by
  intro cs
  induction cs with
  | nil => intro _; rfl
  | cons c rest ih =>
    intro h
    have hc : c ≠ '/' := by
      intro hc
      exact h (by simp [hc])
    have hrest : '/' ∉ rest := fun hr => h (by simp [hr])
    simp [splitLastSlash, ih hrest, hc]

theorem splitLastSlash_some : ∀ cs : List Char, '/' ∈ cs →
    ∃ a b, splitLastSlash cs = some (a, b) ∧ cs = a ++ '/' :: b ∧ '/' ∉ b := by
  intro cs
  induction cs with
  | nil => intro h; simp at h
  | cons c rest ih =>
    intro h
    by_cases hr : '/' ∈ rest
    · obtain ⟨a, b, hsp, heq, hnb⟩ := ih hr
      exact ⟨c :: a, b, by simp [splitLastSlash, hsp], by simp [heq], hnb⟩
    · have hc : c = '/' := by
        rcases List.mem_cons.mp h with h2 | h2
        · exact h2.symm
        · exact absurd h2 hr
      subst hc
      exact ⟨[], rest, by simp [splitLastSlash, splitLastSlash_none rest hr], rfl, hr⟩

/-- C9 (amended): repository parsing splits the input at its last `'/'`
provided the input contains no line terminator (JavaScript `.` does not match
line terminators, so the anchored regex fails otherwise): owner is the
(trimmed) text before the last slash — which may itself contain `'/'` — and
repo the (trimmed) text after it, with trimmed-empty owner/repo raising the
invalid-owner/invalid-name errors; an input with no `'/'`, or containing a
line terminator, raises the format error. -/
theorem c9_getRepo_split (s : String) :
    ('/' ∉ s.data → getRepo s = GetRepoResult.formatError) ∧
    ((∃ c ∈ s.data, isLineTerminator c = true) → getRepo s = GetRepoResult.formatError) ∧
    ((∀ c ∈ s.data, isLineTerminator c = false) → '/' ∈ s.data →
      ∃ a b, s.data = a ++ '/' :: b ∧ '/' ∉ b ∧
        getRepo s = (if jsTrim (String.mk a) = "" then GetRepoResult.invalidOwner
          else if jsTrim (String.mk b) = "" then GetRepoResult.invalidName
          else GetRepoResult.ok (jsTrim (String.mk a)) (jsTrim (String.mk b)))) := by
  refine ⟨?_, ?_, ?_⟩
  · intro h
    unfold getRepo jsMatchOwnerRepo
    by_cases hall : s.data.all (fun c => !isLineTerminator c)
    · simp [hall, splitLastSlash_none s.data h]
    · simp [hall]
  · rintro ⟨c, hc, hlt⟩
    unfold getRepo jsMatchOwnerRepo
    have hno : ¬ s.data.all (fun c => !isLineTerminator c) = true := by
      simp only [List.all_eq_true, Bool.not_eq_true', not_forall]
      exact ⟨c, hc, by simp [hlt]⟩
    simp [hno]
  · intro hall hsl
    obtain ⟨a, b, hsp, heq, hnb⟩ := splitLastSlash_some s.data hsl
    refine ⟨a, b, heq, hnb, ?_⟩
    unfold getRepo jsMatchOwnerRepo
    have hallb : s.data.all (fun c => !isLineTerminator c) = true := by
      simp only [List.all_eq_true, Bool.not_eq_true']
      intro c hc
      exact hall c hc
    simp [hallb, hsp]

/-- C9 (counterexample to the claim as stated): the input `"a\nb/c"` contains
a `'/'`, yet `getRepo` raises the format error instead of returning the
owner/repo split, because the JavaScript regex `/^(.*)\/(.*)$/` cannot match
across the interior line terminator. -/
theorem c9_counterexample :
    '/' ∈ ("a\nb/c" : String).data ∧
    getRepo ("a\nb/c") = GetRepoResult.formatError ∧
    ∀ o r, getRepo ("a\nb/c") ≠ GetRepoResult.ok o r := by
  have h : getRepo ("a\nb/c") = GetRepoResult.formatError := by decide
  refine ⟨by decide, h, ?_⟩
  intro o r hh
  rw [h] at hh
  exact GetRepoResult.noConfusion hh

/-! ## Concrete witnesses -/

def fW10 : Nat → Option JsValue := fun _ => some ⟨true, "E", false, false, 0⟩

def rW10 : Nat → ℚ := fun _ => 0

theorem c10_witness :
    1 ≤ 2 ∧
    (∃ res, runWithRetry 2 1000 fW10 rW10 = some res ∧
      res.calls ≤ 2 ∧
      ((∃ j, j < 2 ∧ fW10 j = none) → res.success = true ∧ res.err = none) ∧
      ((∀ j, j < 2 → fW10 j ≠ none) → res.success = false ∧ res.err = fW10 (2 - 1))) :=
  ⟨by norm_num, c10_retry_total 2 1000 fW10 rW10 (by norm_num)⟩

def fW6 : Nat → Option JsValue := fun _ => some ⟨true, "E", false, false, 0⟩

def rW6 : Nat → ℚ := fun _ => 1/2

theorem c6_witness :
    (∀ n, 0 ≤ rW6 n ∧ rW6 n < 1) ∧
    (∃ res, runWithRetry 4 4000 fW6 rW6 = some res ∧
      res.calls ≤ 4 ∧
      (∀ k, k + 1 < res.calls → fW6 k ≠ none) ∧
      (res.success = true → fW6 (res.calls - 1) = none) ∧
      res.sleeps.length = res.calls - 1 ∧
      (∀ k, ∀ hk : k < res.sleeps.length, ∃ r : ℚ, 0 ≤ r ∧ r < 1 ∧
        res.sleeps.get ⟨k, hk⟩ = min 4000 (((round ((2 ^ k + r) * 1000) : ℤ) : ℚ)))) :=
  ⟨fun n => ⟨by norm_num [rW6], by norm_num [rW6]⟩,
   c6_retry_backoff fW6 rW6 (fun n => ⟨by norm_num [rW6], by norm_num [rW6]⟩)⟩

def baseW2 : ConfigBase := ⟨"o", "r", "v1", "m", "t", "b", false, false, none, []⟩

def cfgW2 : Config := Config.withTarget Strategy.failFast ("sha") baseW2

def envW2 : Env :=
  ⟨Except.ok ("old"), Except.ok [], fun _ => none, none, none, none, Except.ok 7,
    [], fun _ _ => none, fun _ => 0⟩

theorem c2_witness :
    run cfgW2 envW2 = ([Effect.getRef (tagsRef cfgW2.tag)],
      Except.error (RunError.action msgTagExists none)) :=
  (c2_failFast_aborts cfgW2 envW2 ("old") rfl rfl).1

def baseW8 : ConfigBase := ⟨"o", "r", "v1", "m", "t", "b", false, false, none, []⟩

def eW8 : JsValue := ⟨true, "HttpError", true, true, 500⟩

def envW8 : Env :=
  ⟨Except.error eW8, Except.ok [], fun _ => none, none, none, none, Except.ok 7,
    [], fun _ _ => none, fun _ => 0⟩

theorem c8_witness :
    (run (Config.existingTag baseW8) envW8).2 =
      Except.error (RunError.action msgVerify (some eW8)) :=
  (c8_tag_check_errors (Config.existingTag baseW8) envW8 eW8 rfl).2.1 (by decide) (by decide)

def baseW3 : ConfigBase := ⟨"o", "r", "v1", "m", "t", "b", false, false, none, []⟩

def lookW3 : String → Except JsValue String := fun _ => Except.ok ("sha1")

theorem c3_witness :
    validateTargetStrategy Strategy.replace none baseW3 =
      Except.error (RunError.inputParameterRequired targetParam) ∧
    validateTargetStrategy Strategy.useExistingTag (some ("abc")) baseW3 =
      Except.error (RunError.inputParameterIncompatibleStrategy targetParam
        Strategy.useExistingTag) ∧
    ((Config.withTarget Strategy.replace ("abc") baseW3).targetSha.isSome = true ↔
      (Config.withTarget Strategy.replace ("abc") baseW3).strategy ≠
        Strategy.useExistingTag) :=
  ⟨(c3_config_invariant Strategy.replace baseW3 none lookW3).1 (by decide),
   (c3_config_invariant Strategy.useExistingTag baseW3 none lookW3).2.1 ("abc") rfl,
   (c3_config_invariant Strategy.replace baseW3 (some ("abc")) lookW3).2.2
     (Config.withTarget Strategy.replace ("abc") baseW3)
     (by simp [initConfig, resolveTarget, validateTargetStrategy, seqM])⟩

def lookW7 : String → Except JsValue String := fun _ => Except.ok ("sha1")

theorem c7_witness :
    resolveTarget (some ("refs/heads/main")) lookW7 =
      ([Effect.getRef (stripRefs ("refs/heads/main"))], Except.ok (some ("sha1"))) ∧
    stripRefs ("refs/heads/main") = String.mk (("refs/heads/main" : String).data.drop 5) ∧
    resolveTarget (some ("abc123")) lookW7 = ([], Except.ok (some ("abc123"))) :=
  ⟨(c7_target_resolution ("refs/heads/main") lookW7).1 (by decide) ("sha1") rfl,
   (c7_target_resolution ("refs/heads/main") lookW7).2.2.1 (by decide),
   (c7_target_resolution ("abc123") lookW7).2.2.2.2 (by decide)⟩

def baseW4 : ConfigBase := ⟨"o", "r", "v1", "m", "t", "b", false, false, none, []⟩

def cfgW4 : Config := Config.withTarget Strategy.replace ("sha") baseW4

def rsW4 : List Release := [⟨1, "v1"⟩, ⟨2, "other"⟩]

def envW4 : Env :=
  ⟨Except.ok ("old"), Except.ok rsW4, fun _ => none, none, none, none, Except.ok 7,
    [], fun _ _ => none, fun _ => 0⟩

theorem c4_witness :
    ∃ post, (run cfgW4 envW4).1 =
      Effect.getRef (tagsRef cfgW4.tag) :: Effect.listReleases ::
        (((rsW4.filter (fun r => r.tag_name == cfgW4.tag)).map
          (fun r => Effect.deleteRelease r.id)) ++ post) ∧
      (∀ r ∈ rsW4, r.tag_name = cfgW4.tag →
        Effect.deleteRelease r.id ∈
          (rsW4.filter (fun r => r.tag_name == cfgW4.tag)).map
            (fun r => Effect.deleteRelease r.id)) ∧
      (∀ tg2, Effect.createRelease tg2 ∉
        ((rsW4.filter (fun r => r.tag_name == cfgW4.tag)).map
          (fun r => Effect.deleteRelease r.id))) :=
  (c4_cleanup_deletes_matching cfgW4 envW4 rsW4 rfl).2 ("v1") (by decide)

def baseW5 : ConfigBase := ⟨"o", "r", "v1", "m", "t", "b", false, false, none, []⟩

def eW5 : JsValue := ⟨true, "HttpError", true, true, 422⟩

def envW5 : Env :=
  ⟨Except.ok ("old"), Except.ok [], fun _ => none, none, none, none, Except.ok 7,
    [("a.bin")], fun _ _ => some eW5, fun _ => 0⟩

theorem c5_witness :
    ∃ pre, run (Config.existingTag baseW5) envW5 =
      (pre ++ ((List.range 4).map (Effect.uploadAttempt 0) ++
        (Effect.deleteRelease 7 ::
          undoEffects (Config.existingTag baseW5).tag UndoAction.noop)),
        Except.error (RunError.action (msgUpload ++ ("a.bin"))
          (envW5.attempt 0 3))) ∧
      (∀ i k, 0 < i →
        Effect.uploadAttempt i k ∉ (run (Config.existingTag baseW5) envW5).1) :=
  c5_upload_exhaustion_aborts (Config.existingTag baseW5) envW5 (some ("old")) []
    UndoAction.noop 7 [("a.bin")] 0 rfl (by decide) rfl rfl rfl rfl rfl (by decide)
    (fun i hi => absurd hi (Nat.not_lt_zero i))
    (fun k hk => by simp [envW5, eW5])

theorem c1_witness :
    tagStage (Config.existingTag baseC1) envC1 none = ([], Except.ok UndoAction.noop) ∧
    Effect.createRelease baseC1.tag ∈ (run (Config.existingTag baseC1) envC1).1 :=
  ⟨(c1_useExistingTag_absent_proceeds baseC1 envC1 ⟨true, "HttpError", true, true, 404⟩
      [] 7 rfl (by decide) (by decide) rfl rfl rfl).1,
   (c1_useExistingTag_absent_proceeds baseC1 envC1 ⟨true, "HttpError", true, true, 404⟩
      [] 7 rfl (by decide) (by decide) rfl rfl rfl).2.1⟩

theorem c9_witness :
    getRepo ("ab") = GetRepoResult.formatError ∧
    (∃ a b, ("a/b" : String).data = a ++ '/' :: b ∧ '/' ∉ b ∧
      getRepo ("a/b") = (if jsTrim (String.mk a) = "" then GetRepoResult.invalidOwner
        else if jsTrim (String.mk b) = "" then GetRepoResult.invalidName
        else GetRepoResult.ok (jsTrim (String.mk a)) (jsTrim (String.mk b)))) :=
  ⟨(c9_getRepo_split ("ab")).1 (by decide),
   (c9_getRepo_split ("a/b")).2.2 (by decide) (by decide)⟩
